import Mathlib

/-!
# Verification of the ipscannr network discovery engine

A shallow embedding, in Lean 4, of the core of the `ipscannr` repository:
range parsing (`src/scanner/range.rs`), host probing (`src/scanner/ping.rs`),
port scanning (`src/scanner/port.rs`), the scan session state machine
(`src/app.rs`, `src/main.rs`) and the on-disk result cache (`src/cache.rs`),
together with theorems checking the natural-language specification against it.

Rust strings are modelled as `List Char` (`Str`), machine integers as `Nat`
with explicit bounds, fallible operations as `Option`/`Except`, and the
network as explicit outcome oracles.
-/

namespace IpScannr

/-- Rust `&str` / `String`, modelled as a list of characters. -/
abbrev Str := List Char

/-- Rust `str::split(sep)`: splits on every occurrence of `sep`, keeping empty
pieces (`"".split(sep)` yields one empty piece). -/
def splitOnChar (sep : Char) : Str → List Str
  | [] => [[]]
  | c :: rest =>
    let r := splitOnChar sep rest
    if c = sep then [] :: r
    else
      match r with
      | [] => [[c]]
      | h :: t => (c :: h) :: t

/-- Rust `str::trim`: removes whitespace from both ends. -/
def trimChars (s : Str) : Str :=
  ((s.dropWhile Char.isWhitespace).reverse.dropWhile Char.isWhitespace).reverse

/-- Decimal value of a list of digit characters (used by the numeric parsers). -/
def digitsVal (l : Str) : Nat :=
  l.foldl (fun acc c => acc * 10 + (c.toNat - 48)) 0

/-- The octet parser inside Rust `Ipv4Addr::from_str` (`core::net::parser`):
1–3 ASCII digits, no leading zero (except `"0"` itself), value ≤ 255. -/
def parseOctet (s : Str) : Option (Fin 256) :=
  if s = [] then none
  else if ¬ s.all Char.isDigit then none
  else if s.length > 3 then none
  else if s.head? = some '0' ∧ s.length > 1 then none
  else
    let v := digitsVal s
    if h : v < 256 then some ⟨v, h⟩ else none

/-- Rust unsigned-integer `FromStr` (used for `u8`/`u16` parses outside
`Ipv4Addr`): optional leading `'+'`, then one or more digits, value < `bound`.
Leading zeros are accepted. -/
def parseUnsigned (bound : Nat) (s : Str) : Option Nat :=
  let digits : Str :=
    match s with
    | '+' :: rest => rest
    | _ => s
  if s = [] then none
  else if digits = [] then none
  else if ¬ digits.all Char.isDigit then none
  else
    let v := digitsVal digits
    if v < bound then some v else none

/-- Rust `std::net::Ipv4Addr`: four octets. -/
structure Ipv4 where
  a : Fin 256
  b : Fin 256
  c : Fin 256
  d : Fin 256
deriving DecidableEq, Repr

/-- Convenience constructor (reduces each argument mod 256). -/
def ipv4 (a b c d : Nat) : Ipv4 :=
  ⟨⟨a % 256, Nat.mod_lt _ (by decide)⟩, ⟨b % 256, Nat.mod_lt _ (by decide)⟩,
   ⟨c % 256, Nat.mod_lt _ (by decide)⟩, ⟨d % 256, Nat.mod_lt _ (by decide)⟩⟩

/-- Rust `u32::from(ipv4_addr)`: big-endian numeric value. -/
def Ipv4.toU32 (ip : Ipv4) : Nat :=
  ((ip.a.val * 256 + ip.b.val) * 256 + ip.c.val) * 256 + ip.d.val

/-- Rust `Ipv4Addr::from(u32)` (the argument is a `u32`, i.e. `< 2^32`). -/
def Ipv4.ofU32 (n : Nat) : Ipv4 :=
  ⟨⟨n / 16777216 % 256, Nat.mod_lt _ (by decide)⟩,
   ⟨n / 65536 % 256, Nat.mod_lt _ (by decide)⟩,
   ⟨n / 256 % 256, Nat.mod_lt _ (by decide)⟩,
   ⟨n % 256, Nat.mod_lt _ (by decide)⟩⟩

/-- Rust `Ipv4Addr::from_str`: exactly four dot-separated octet groups. -/
def Ipv4.fromChars (s : Str) : Option Ipv4 :=
  match splitOnChar '.' s with
  | [p0, p1, p2, p3] =>
    match parseOctet p0, parseOctet p1, parseOctet p2, parseOctet p3 with
    | some a, some b, some c, some d => some ⟨a, b, c, d⟩
    | _, _, _, _ => none
  | _ => none

/-- Rust `Ipv4Addr`'s `Display`: dotted decimal. -/
def Ipv4.toChars (ip : Ipv4) : Str :=
  Nat.toDigits 10 ip.a.val ++
    ('.' :: (Nat.toDigits 10 ip.b.val ++
      ('.' :: (Nat.toDigits 10 ip.c.val ++
        ('.' :: Nat.toDigits 10 ip.d.val)))))

instance {ε α : Type} [DecidableEq ε] [DecidableEq α] : DecidableEq (Except ε α) := fun x y =>
  match x, y with
  | .ok a, .ok b =>
    if h : a = b then .isTrue (by rw [h]) else .isFalse (by intro hc; cases hc; exact h rfl)
  | .error a, .error b =>
    if h : a = b then .isTrue (by rw [h]) else .isFalse (by intro hc; cases hc; exact h rfl)
  | .ok _, .error _ => .isFalse (by intro hc; cases hc)
  | .error _, .ok _ => .isFalse (by intro hc; cases hc)

/-- The error sites of `IpRange::parse` and its helpers (each constructor is
one `anyhow!` site in `src/scanner/range.rs`). -/
inductive ParseErr where
  | emptyRange
  | invalidIp (s : Str)
  | invalidCidr (s : Str)
  | cidrEmpty
  | invalidRangeFormat (s : Str)
  | invalidStartIp (s : Str)
  | invalidEndIp (s : Str)
  | invalidEndOctet (s : Str)
  | startGreaterThanEnd
  | noValidIps
deriving DecidableEq, Repr

/-- The network mask with `n` leading one bits (`n ≤ 32`). -/
def maskOfPrefix (n : Nat) : Nat := 4294967296 - 2 ^ (32 - n)

/-- Model of `ipnetwork`'s prefix parser: a number `≤ 32`, or a dotted netmask that is
a contiguous run of leading ones. -/
def parsePrefix (s : Str) : Option Nat :=
  if '.' ∈ s then
    match Ipv4.fromChars s with
    | some m => (List.range 33).find? (fun n => maskOfPrefix n = m.toU32)
    | none => none
  else
    match parseUnsigned 256 s with
    | some n => if n ≤ 32 then some n else none
    | none => none

/-- Model of `ipnetwork::Ipv4Network::from_str` on input containing `'/'`:
address part and prefix part. -/
def ipv4NetworkFromChars (s : Str) : Option (Ipv4 × Nat) :=
  match splitOnChar '/' s with
  | [addrPart, prefixPart] =>
    match Ipv4.fromChars addrPart, parsePrefix prefixPart with
    | some addr, some plen => some (addr, plen)
    | _, _ => none
  | _ => none

/-- Model of `Ipv4Network::iter`: every address of the network, ascending from the
masked network address; `2^(32-plen)` addresses in total. -/
def networkIter (addr : Ipv4) (plen : Nat) : List Ipv4 :=
  let base := addr.toU32 &&& maskOfPrefix plen
  (List.range (2 ^ (32 - plen))).map (fun i => Ipv4.ofU32 (base + i))

/-- Embedding of `(start_u32..=end_u32).map(Ipv4Addr::from).collect()` in
`IpRange::parse_range` (empty when `e < s`). -/
def rangeAddrs (s e : Nat) : List Ipv4 :=
  (List.range (e + 1 - s)).map (fun i => Ipv4.ofU32 (s + i))

/-- Embedding of `IpRange::parse_cidr` (`src/scanner/range.rs:52-64`). -/
def parse_cidr (input : Str) : Except ParseErr (List Ipv4) :=
  match ipv4NetworkFromChars input with
  | none => .error (.invalidCidr input)
  | some (addr, plen) =>
    let addresses := networkIter addr plen
    if addresses = [] then .error .cidrEmpty
    else .ok addresses

/-- Rust `u8::from_str`, landing in `Fin 256`. -/
def parseU8 (s : Str) : Option (Fin 256) :=
  match parseUnsigned 256 s with
  | some v => if h : v < 256 then some ⟨v, h⟩ else none
  | none => none

/-- Resolution of the right-hand side of a dash range: a full dotted IPv4 if
it contains `'.'`, otherwise a bare `u8` final octet reusing the start's
first three octets (`src/scanner/range.rs:77-88`). -/
def rangeEnd (start : Ipv4) (p1 : Str) : Except ParseErr Ipv4 :=
  if '.' ∈ trimChars p1 then
    match Ipv4.fromChars (trimChars p1) with
    | some e => .ok e
    | none => .error (.invalidEndIp p1)
  else
    match parseU8 (trimChars p1) with
    | some o => .ok ⟨start.a, start.b, start.c, o⟩
    | none => .error (.invalidEndOctet p1)

/-- Embedding of `IpRange::parse_range` (`src/scanner/range.rs:66-102`). -/
def parse_range (input : Str) : Except ParseErr (List Ipv4) :=
  match splitOnChar '-' input with
  | [p0, p1] =>
    match Ipv4.fromChars (trimChars p0) with
    | none => .error (.invalidStartIp p0)
    | some start =>
      match rangeEnd start p1 with
      | .error e => .error e
      | .ok endIp =>
        if start.toU32 > endIp.toU32 then .error .startGreaterThanEnd
        else .ok (rangeAddrs start.toU32 endIp.toU32)
  | _ => .error (.invalidRangeFormat input)

/-- The per-token dispatch inside `IpRange::parse_comma_list`
(`src/scanner/range.rs:113-122`): CIDR if it has `'/'`, dash range if it has
`'-'`, otherwise a single dotted IPv4. The token is already trimmed. -/
def comma_token (part : Str) : Except ParseErr (List Ipv4) :=
  if '/' ∈ part then parse_cidr part
  else if '-' ∈ part then parse_range part
  else
    match Ipv4.fromChars part with
    | some addr => .ok [addr]
    | none => .error (.invalidIp part)

/-- The accumulation loop of `IpRange::parse_comma_list`: trim each piece,
skip empty pieces, parse the rest, extend the accumulator (an error in any
token propagates, as `?` does). -/
def commaLoop : List Str → Except ParseErr (List Ipv4)
  | [] => .ok []
  | part :: rest =>
    let part := trimChars part
    if part = [] then commaLoop rest
    else
      match comma_token part with
      | .error e => .error e
      | .ok addrs =>
        match commaLoop rest with
        | .error e => .error e
        | .ok more => .ok (addrs ++ more)

/-- Embedding of `IpRange::parse_comma_list` (`src/scanner/range.rs:104-132`). -/
def parse_comma_list (input : Str) : Except ParseErr (List Ipv4) :=
  match commaLoop (splitOnChar ',' input) with
  | .error e => .error e
  | .ok addresses =>
    if addresses = [] then .error .noValidIps
    else .ok addresses

namespace IpRange

/-- Embedding of `IpRange::parse` (`src/scanner/range.rs:21-50`): trim, reject empty,
then dispatch on `','`, `'/'`, `'-'`, else single IP. -/
def parse (input : Str) : Except ParseErr (List Ipv4) :=
  let input := trimChars input
  if input = [] then .error .emptyRange
  else if ',' ∈ input then parse_comma_list input
  else if '/' ∈ input then parse_cidr input
  else if '-' ∈ input then parse_range input
  else
    match Ipv4.fromChars input with
    | some addr => .ok [addr]
    | none => .error (.invalidIp input)

end IpRange

/-! ## Host probing (`src/scanner/ping.rs`)

Network interactions are modelled by outcome oracles: what each ICMP echo
attempt and each TCP connect attempt would observe.  The oracles are indexed
by the attempt/pass number because a retry of the same operation happens at a
later time and may observe a different outcome. -/

/-- Rust `PingMethod` (`ping.rs:20-24`). -/
inductive PingMethod where
  | icmp
  | tcp
deriving DecidableEq, Repr

/-- Rust `HostStatus` (`ping.rs:36-44`). -/
inductive HostStatus where
  | online
  | onlineNoIcmp
  | offline
deriving DecidableEq, Repr

/-- Rust `PingResult` (`ping.rs:11-18`); `rtt` in abstract time units. -/
structure PingResult where
  ip : Ipv4
  is_alive : Bool
  rtt : Option Nat
  method : PingMethod
  status : HostStatus
deriving DecidableEq, Repr

/-- Rust `PingerConfig` (`ping.rs:57-62`); the timeout only shapes the
oracles, so only `retries` is carried. -/
structure PingerConfig where
  retries : Nat
deriving DecidableEq, Repr

/-- Outcome of one `TcpStream::connect` bounded by the timeout. -/
inductive TcpOutcome where
  | established
  | connRefused
  | otherError
  | timedOut
deriving DecidableEq, Repr

/-- The environment a `Pinger` runs in: whether the semaphore acquire
succeeds, whether the ICMP client was created (`icmp_client.is_some()`), and
the outcome oracles for ICMP echoes and TCP connects. -/
structure PingEnv where
  semaphoreOk : Bool
  icmpClient : Bool
  /-- Outcome of the ICMP echo of attempt `seq` at `ip`: `some rtt` when a
  reply arrived within the timeout. -/
  icmpEcho : Ipv4 → Nat → Option Nat
  /-- Outcome of the TCP connect to `ip:port` during retry pass `pass`. -/
  tcpConn : Ipv4 → Nat → Nat → TcpOutcome
  /-- Elapsed time observed for that TCP connect attempt. -/
  tcpElapsed : Ipv4 → Nat → Nat → Nat

/-- Embedding of `Pinger::tcp_ping` (`ping.rs:180-202`): an established
connection or an immediate `ConnectionRefused` yields `Some(start.elapsed())`;
any other error, or a timeout, yields `None`. -/
def tcp_ping (env : PingEnv) (ip : Ipv4) (pass port : Nat) : Option Nat :=
  match env.tcpConn ip pass port with
  | .established => some (env.tcpElapsed ip pass port)
  | .connRefused => some (env.tcpElapsed ip pass port)
  | .otherError => none
  | .timedOut => none

/-- The fixed candidate TCP port list of `Pinger::ping` (`ping.rs:125`). -/
def tcpPorts : List Nat := [80, 443, 22, 445, 139, 135, 3389, 21, 23, 25, 53]

/-- The ICMP loop of `Pinger::ping` (`ping.rs:111-121`): attempts
`0..=retries` in order, first reply returns immediately. -/
def icmpFirst (env : PingEnv) (cfg : PingerConfig) (ip : Ipv4) : Option Nat :=
  (List.range (cfg.retries + 1)).findSome? (fun a => env.icmpEcho ip a)

/-- The TCP fallback loop of `Pinger::ping` (`ping.rs:127-146`): up to
`retries + 1` full passes over the candidate port list, first success returns
immediately. -/
def tcpFirst (env : PingEnv) (cfg : PingerConfig) (ip : Ipv4) : Option Nat :=
  (List.range (cfg.retries + 1)).findSome? (fun pass =>
    tcpPorts.findSome? (fun port => tcp_ping env ip pass port))

namespace Pinger

/-- Embedding of `Pinger::ping` (`ping.rs:96-160`). -/
def ping (env : PingEnv) (cfg : PingerConfig) (ip : Ipv4) : PingResult :=
  if env.semaphoreOk = false then
    { ip := ip, is_alive := false, rtt := none, method := .icmp, status := .offline }
  else
    match (if env.icmpClient then icmpFirst env cfg ip else none) with
    | some rtt =>
      { ip := ip, is_alive := true, rtt := some rtt, method := .icmp, status := .online }
    | none =>
      match tcpFirst env cfg ip with
      | some rtt =>
        { ip := ip, is_alive := true, rtt := some rtt, method := .tcp,
          status := if env.icmpClient then .onlineNoIcmp else .online }
      | none =>
        { ip := ip, is_alive := false, rtt := none,
          method := if env.icmpClient then .icmp else .tcp, status := .offline }

end Pinger

/-- The worker loop of `scan_hosts` (`ping.rs:222-236`) specialised to a
single worker: jobs are pulled from the queue in FIFO order, each is pinged,
and the result is sent on the results channel. -/
def workerLoop (env : PingEnv) (cfg : PingerConfig) : List Ipv4 → List PingResult
  | [] => []
  | ip :: rest => Pinger.ping env cfg ip :: workerLoop env cfg rest

/-- Embedding of `scan_hosts` (`ping.rs:207-251`) with `concurrent_limit = 1`:
`worker_count = max(1,1) = 1`, so the single worker drains the job queue
sequentially in the order the main task fed it (the full address list); the
returned list is the sequence of sends on the results channel, and the channel
closes when the function returns. -/
def scan_hosts_c1 (env : PingEnv) (cfg : PingerConfig) (addresses : List Ipv4) :
    List PingResult :=
  workerLoop env cfg addresses

/-! ## Port scanning (`src/scanner/port.rs`) -/

/-- Rust `PortResult` (`port.rs:78-83`). -/
structure PortResult where
  port : Nat
  is_open : Bool
  service : Str
deriving DecidableEq, Repr

/-- Embedding of `get_service_name` (`port.rs:38-75`). -/
def get_service_name (port : Nat) : Str :=
  if port = 21 then "ftp".toList
  else if port = 22 then "ssh".toList
  else if port = 23 then "telnet".toList
  else if port = 25 then "smtp".toList
  else if port = 53 then "dns".toList
  else if port = 80 then "http".toList
  else if port = 110 then "pop3".toList
  else if port = 111 then "rpc".toList
  else if port = 135 then "msrpc".toList
  else if port = 139 then "netbios".toList
  else if port = 143 then "imap".toList
  else if port = 443 then "https".toList
  else if port = 445 then "smb".toList
  else if port = 993 then "imaps".toList
  else if port = 995 then "pop3s".toList
  else if port = 1433 then "mssql".toList
  else if port = 1521 then "oracle".toList
  else if port = 3306 then "mysql".toList
  else if port = 3389 then "rdp".toList
  else if port = 5432 then "postgres".toList
  else if port = 5900 then "vnc".toList
  else if port = 6379 then "redis".toList
  else if port = 8080 then "http-alt".toList
  else if port = 8443 then "https-alt".toList
  else if port = 27017 then "mongodb".toList
  else "unknown".toList

/-- The environment one `PortScanner::scan_port` call runs in. -/
structure PortEnv where
  semaphoreOk : Bool
  /-- Outcome of the single TCP connect to the given port, bounded by the
  configured timeout. -/
  conn : Nat → TcpOutcome

namespace PortScanner

/-- Embedding of `PortScanner::scan_port` (`port.rs:114-140`):
`is_open` is `timeout(..).await.map(|r| r.is_ok()).unwrap_or(false)` — true
exactly when the connection was established. -/
def scan_port (env : PortEnv) (port : Nat) : PortResult :=
  if env.semaphoreOk = false then
    { port := port, is_open := false, service := get_service_name port }
  else
    let is_open :=
      match env.conn port with
      | .established => true
      | .connRefused => false
      | .otherError => false
      | .timedOut => false
    { port := port, is_open := is_open, service := get_service_name port }

end PortScanner

/-- Consecutive-duplicate removal, Rust `Vec::dedup` (`port.rs:227`). -/
def dedupConsec : List Nat → List Nat
  | [] => []
  | [a] => [a]
  | a :: b :: rest =>
    if a = b then dedupConsec (b :: rest)
    else a :: dedupConsec (b :: rest)

/-- Rust `u16::from_str` (ports). -/
def parseU16 (s : Str) : Option Nat := parseUnsigned 65536 s

/-- Embedding of the `(start..=end)` push loop of one range token of
`parse_ports` (empty when `e < s`). -/
def portRange (s e : Nat) : List Nat :=
  (List.range (e + 1 - s)).map (fun i => s + i)

/-- The body of the token loop of `parse_ports` (`port.rs:206-224`): whatever
the token contributes to the accumulated port list. -/
def portToken (part : Str) : List Nat :=
  let part := trimChars part
  if part = [] then []
  else if '-' ∈ part then
    match splitOnChar '-' part with
    | [a, b] =>
      match parseU16 a, parseU16 b with
      | some s, some e => portRange s e
      | _, _ => []
    | _ => []
  else
    match parseU16 part with
    | some p => [p]
    | none => []

/-- Embedding of `parse_ports` (`port.rs:203-229`): accumulate token
contributions over the comma-split input, then `sort` and `dedup`.
Rust's stable `sort` on `u16` keys is modelled by insertion sort. -/
def parse_ports (input : Str) : List Nat :=
  dedupConsec
    (((splitOnChar ',' input).foldl (fun ports part => ports ++ portToken part) []).insertionSort
      (· ≤ ·))

/-! ## Application state machine (`src/app.rs`, `src/main.rs`)

The channels of the real code are modelled explicitly: an `mpsc::Sender`
held by the app is a `Bool` (present or not), and the single-slot cancel /
resume channels are `Bool` flags saying whether a signal is pending. -/

/-- Rust `MacInfo` (`src/scanner/mac.rs`). -/
structure MacInfo where
  address : Str
  vendor : Option Str
deriving DecidableEq, Repr

/-- Rust `HostInfo` as used by `src/cache.rs` and the spec's `HostRecord`
(the snapshot's `app.rs` declares an earlier six-field version; the last four
fields are exactly the ones `cache.rs` reads and writes).  `rtt` is a
`Duration` in nanoseconds. -/
structure HostInfo where
  ip : Ipv4
  is_alive : Bool
  rtt : Option Nat
  hostname : Option Str
  mac : Option MacInfo
  open_ports : List Nat
  ports_scanned : Bool
  cached_at : Option Nat
  method : PingMethod
  status : HostStatus
deriving DecidableEq, Repr

/-- Embedding of `impl From<PingResult> for HostInfo` (`app.rs:28-39`),
extended with the four extra fields at their pre-enrichment values. -/
def pingResultToHost (r : PingResult) : HostInfo :=
  { ip := r.ip, is_alive := r.is_alive, rtt := r.rtt, hostname := none,
    mac := none, open_ports := [], ports_scanned := false, cached_at := none,
    method := r.method, status := r.status }

/-- Rust `ScanState` (`app.rs:66-71`). -/
inductive ScanState where
  | idle
  | scanning
  | paused
  | completed
deriving DecidableEq, Repr

/-- Rust `Focus` (`app.rs:75-79`). -/
inductive Focus where
  | rangeInput
  | hostsTable
  | detailsPane
deriving DecidableEq, Repr

/-- Rust `FilterMode` (`app.rs:43-46`). -/
inductive FilterMode where
  | all
  | onlineOnly
deriving DecidableEq, Repr

/-- Rust `ScanEvent` (`app.rs:1049-`). -/
inductive ScanEvent where
  | hostDiscovered (h : HostInfo)
  | scanComplete
deriving DecidableEq, Repr

/-- The scan-lifecycle-relevant state of `App` (`app.rs:82-133`). -/
structure AppM where
  scan_state : ScanState
  focus : Focus
  filter_mode : FilterMode
  range_input : Str
  hosts : List HostInfo
  /-- Indices into `hosts` (`filtered_hosts`). -/
  filtered_hosts : List Nat
  /-- `table_state.selected()`. -/
  table_state : Option Nat
  selected_hosts : List Ipv4
  scan_total : Nat
  scan_completed : Nat
  /-- Whether `scan_cancel_tx` holds a sender. -/
  scan_cancel_tx : Bool
  /-- Whether a `()` is sitting in the cancel channel. -/
  cancelPending : Bool
  /-- Whether `scan_resume_tx` holds a sender. -/
  scan_resume_tx : Bool
  /-- Whether a `()` is sitting in the resume channel. -/
  resumePending : Bool
deriving DecidableEq, Repr

namespace App

/-- Embedding of `App::update_filtered_hosts` (`app.rs:685-707`). -/
def update_filtered_hosts (a : AppM) : AppM :=
  let filtered :=
    ((a.hosts.enum.filter (fun p =>
        match a.filter_mode with
        | .all => true
        | .onlineOnly => p.2.is_alive)).map (fun p => p.1))
  let ts :=
    match a.table_state with
    | some selected =>
      if selected ≥ filtered.length then
        if filtered = [] then none else some (filtered.length - 1)
      else some selected
    | none => none
  { a with filtered_hosts := filtered, table_state := ts }

/-- Embedding of `App::pause_scan` (`app.rs:633-640`): only from `Scanning`;
`try_send(())` on the cancel channel (kept pending if already full), then
transition to `Paused`. -/
def pause_scan (a : AppM) : AppM :=
  if a.scan_state = .scanning then
    { a with
      cancelPending := if a.scan_cancel_tx then true else a.cancelPending,
      scan_state := .paused }
  else a

/-- Embedding of `App::resume_scan` (`app.rs:642-649`): only from `Paused`;
transition to `Scanning` and `try_send(())` on the resume channel. -/
def resume_scan (a : AppM) : AppM :=
  if a.scan_state = .paused then
    { a with
      scan_state := .scanning,
      resumePending := if a.scan_resume_tx then true else a.resumePending }
  else a

/-- The stable sort `self.hosts.sort_by_key(|h| h.ip)` (`app.rs:861`). -/
def sortByIp (hosts : List HostInfo) : List HostInfo :=
  hosts.insertionSort (fun h h' => h.ip.toU32 ≤ h'.ip.toU32)

/-- Embedding of the synchronous state mutation of `App::start_scan`
(`app.rs:771-787`): parse the range (fail fast), clear results and
selection, set counters, transition to `Scanning`, install a fresh cancel
channel. -/
def start_scan (a : AppM) : Except ParseErr AppM :=
  match IpRange.parse a.range_input with
  | .error e => .error e
  | .ok addresses =>
    .ok { a with
      hosts := [],
      filtered_hosts := [],
      selected_hosts := [],
      table_state := none,
      scan_total := addresses.length,
      scan_completed := 0,
      scan_state := .scanning,
      focus := .hostsTable,
      scan_cancel_tx := true,
      cancelPending := false }

/-- Embedding of `run_app`'s `AppCommand::ResumeScan` arm (`main.rs:283-290`):
`resume_scan()` followed by a fresh `start_scan()` over `range_input`
(on a parse error the app keeps its state and only records a message). -/
def resume_scan_command (a : AppM) : AppM :=
  let a := resume_scan a
  match start_scan a with
  | .ok a2 => a2
  | .error _ => a

/-- Embedding of `App::handle_scan_event` (`app.rs:842-865`). -/
def handle_scan_event (a : AppM) (event : ScanEvent) : AppM :=
  match event with
  | .hostDiscovered h =>
    let a := { a with hosts := a.hosts ++ [h], scan_completed := a.scan_completed + 1 }
    let a := update_filtered_hosts a
    if a.table_state = none ∧ a.filtered_hosts ≠ [] then
      { a with table_state := some 0 }
    else a
  | .scanComplete =>
    let a := if a.scan_state ≠ .paused then { a with scan_state := .completed } else a
    let a := { a with scan_cancel_tx := false, hosts := sortByIp a.hosts }
    update_filtered_hosts a

end App

/-- The enrichment policy flags of `Config` consumed by the result loop. -/
structure ScanCfg where
  resolve_hostnames : Bool
  detect_mac : Bool

/-- The enrichment collaborators: the DNS resolver and the ARP MAC lookup. -/
structure EnrichEnv where
  dns : Ipv4 → Option Str
  mac : Ipv4 → Option MacInfo

/-- Embedding of the enrichment step of the result loop (`app.rs:810-826`). -/
def enrich (cfg : ScanCfg) (env : EnrichEnv) (r : PingResult) : HostInfo :=
  let host := pingResultToHost r
  let host :=
    if host.is_alive && cfg.resolve_hostnames then
      match env.dns host.ip with
      | some hostname => { host with hostname := some hostname }
      | none => host
    else host
  if host.is_alive && cfg.detect_mac then
    match env.mac host.ip with
    | some mac => { host with mac := some mac }
    | none => host
  else host

/-- Embedding of the `tokio::select!` result loop of `App::start_scan`
(`app.rs:803-836`).  `cancelAfter = some n` means the cancel signal is
observed at the loop's suspension point after `n` results were processed;
`none` means no cancel ever arrives.  Each received result is enriched and
emitted as `HostDiscovered`; when the ping channel closes first,
`ScanComplete` is emitted and the loop ends. -/
def scanLoopEvents (cfg : ScanCfg) (env : EnrichEnv) :
    Option Nat → List PingResult → List ScanEvent
  | some 0, _ => []
  | some (n + 1), r :: rest =>
    .hostDiscovered (enrich cfg env r) :: scanLoopEvents cfg env (some n) rest
  | some (_ + 1), [] => [.scanComplete]
  | none, r :: rest =>
    .hostDiscovered (enrich cfg env r) :: scanLoopEvents cfg env none rest
  | none, [] => [.scanComplete]

/-! ## Result cache (`src/cache.rs`)

The JSON (de)serialisation layer (`serde_json`) is abstracted as faithful:
the on-disk file is either missing, malformed, or a valid top-level map from
range-key strings to entries.  `HashMap` is modelled extensionally as a
function `Str → Option CacheEntry`. -/

/-- Rust `CachedHost` (`cache.rs:13-26`). -/
structure CachedHost where
  ip : Str
  is_alive : Bool
  rtt_ms : Option Nat
  hostname : Option Str
  mac_address : Option Str
  mac_vendor : Option Str
  open_ports : List Nat
  method : Option Str
  status : Option Str
deriving DecidableEq, Repr

/-- Rust `CacheEntry` (`cache.rs:34-38`). -/
structure CacheEntry where
  scanned_at : Nat
  hosts : List CachedHost

/-- The state of the cache file on disk. -/
inductive FileState where
  | missing
  | malformed
  | valid (m : Str → Option CacheEntry)

/-- The map recovered from disk at the start of `save_cache`
(`cache.rs:146-149`): read/parse failures degrade to an empty map. -/
def FileState.readMap : FileState → (Str → Option CacheEntry)
  | .valid m => m
  | _ => fun _ => none

/-- Display of `PingMethod` (`ping.rs:26-33`). -/
def methodStr : PingMethod → Str
  | .icmp => "ICMP".toList
  | .tcp => "TCP".toList

/-- The status serialisation match of `save_cache` (`cache.rs:131-135`). -/
def statusStr : HostStatus → Str
  | .online => "Online".toList
  | .onlineNoIcmp => "OnlineNoIcmp".toList
  | .offline => "Offline".toList

/-- The `HostInfo → CachedHost` mapping of `save_cache` (`cache.rs:120-137`);
`as_millis` truncates the nanosecond `Duration`. -/
def toCached (h : HostInfo) : CachedHost :=
  { ip := h.ip.toChars,
    is_alive := h.is_alive,
    rtt_ms := h.rtt.map (fun d => d / 1000000),
    hostname := h.hostname,
    mac_address := h.mac.map (fun m => m.address),
    mac_vendor := h.mac.bind (fun m => m.vendor),
    open_ports := h.open_ports,
    method := some (methodStr h.method),
    status := some (statusStr h.status) }

/-- The `CachedHost → Option HostInfo` closure of `load_cache`
(`cache.rs:66-110`): a host whose `ip` string does not parse is dropped;
missing `method`/`status` fall back to legacy defaults. -/
def fromCached (scanned_at : Nat) (h : CachedHost) : Option HostInfo :=
  match Ipv4.fromChars h.ip with
  | none => none
  | some ip =>
    let mac := h.mac_address.map (fun addr => MacInfo.mk addr h.mac_vendor)
    let method :=
      (h.method.bind (fun m =>
        if m = "ICMP".toList then some PingMethod.icmp
        else if m = "TCP".toList then some PingMethod.tcp
        else none)).getD .tcp
    let status :=
      (h.status.bind (fun s =>
        if s = "Online".toList then some HostStatus.online
        else if s = "OnlineNoIcmp".toList then some HostStatus.onlineNoIcmp
        else if s = "Offline".toList then some HostStatus.offline
        else none)).getD (if h.is_alive then .online else .offline)
    some { ip := ip,
           is_alive := h.is_alive,
           rtt := h.rtt_ms.map (fun ms => ms * 1000000),
           hostname := h.hostname,
           mac := mac,
           open_ports := h.open_ports,
           ports_scanned := !h.open_ports.isEmpty,
           cached_at := some scanned_at,
           method := method,
           status := status }

/-- Embedding of `load_cache` (`cache.rs:50-112`): missing file, malformed
JSON, or an absent (verbatim) key all yield the empty list. -/
def load_cache (fs : FileState) (range : Str) : List HostInfo :=
  match fs with
  | .missing => []
  | .malformed => []
  | .valid m =>
    match m range with
    | none => []
    | some entry => entry.hosts.filterMap (fromCached entry.scanned_at)

/-- Embedding of `save_cache` (`cache.rs:115-163`) for the successful-write
case: a no-op on an empty host list, otherwise insert the new entry into the
map recovered from disk (every other key untouched) and write the whole map
back.  `now` is the wall clock read by `now_secs()`. -/
def save_cache (now : Nat) (fs : FileState) (range : Str) (hosts : List HostInfo) :
    FileState :=
  if hosts = [] then fs
  else
    let entry : CacheEntry := { scanned_at := now, hosts := hosts.map toCached }
    let base := fs.readMap
    .valid (fun k => if k = range then some entry else base k)

theorem Ipv4.toU32_lt (ip : Ipv4) : ip.toU32 < 4294967296 := by
  have ha := ip.a.isLt
  have hb := ip.b.isLt
  have hc := ip.c.isLt
  have hd := ip.d.isLt
  simp only [Ipv4.toU32]
  omega

theorem Ipv4.ofU32_toU32 (ip : Ipv4) : Ipv4.ofU32 ip.toU32 = ip := by
  obtain ⟨⟨a, ha⟩, ⟨b, hb⟩, ⟨c, hc⟩, ⟨d, hd⟩⟩ := ip
  simp only [Ipv4.toU32, Ipv4.ofU32, Ipv4.mk.injEq, Fin.mk.injEq]
  refine ⟨?_, ?_, ?_, ?_⟩ <;> omega

theorem Ipv4.toU32_ofU32 (n : Nat) (h : n < 4294967296) :
    (Ipv4.ofU32 n).toU32 = n := by
  simp only [Ipv4.toU32, Ipv4.ofU32]
  omega

/-! ## C1: host status classification in `Pinger::ping` -/

theorem icmpFirst_ne_none_iff (env : PingEnv) (cfg : PingerConfig) (ip : Ipv4) :
    icmpFirst env cfg ip ≠ none ↔ ∃ a < cfg.retries + 1, env.icmpEcho ip a ≠ none := by
  rw [Ne, icmpFirst, List.findSome?_eq_none_iff]
  push_neg
  simp [List.mem_range]

theorem tcpFirst_eq_none_iff (env : PingEnv) (cfg : PingerConfig) (ip : Ipv4) :
    tcpFirst env cfg ip = none ↔
      ∀ pass < cfg.retries + 1, ∀ port ∈ tcpPorts, tcp_ping env ip pass port = none := by
  rw [tcpFirst, List.findSome?_eq_none_iff]
  constructor
  · intro h pass hpass port hport
    have h2 := h pass (List.mem_range.mpr hpass)
    rw [List.findSome?_eq_none_iff] at h2
    exact h2 port hport
  · intro h pass hpass
    rw [List.findSome?_eq_none_iff]
    exact h pass (List.mem_range.mp hpass)

theorem tcpFirst_ne_none_iff (env : PingEnv) (cfg : PingerConfig) (ip : Ipv4) :
    tcpFirst env cfg ip ≠ none ↔
      ∃ pass < cfg.retries + 1, ∃ port ∈ tcpPorts, tcp_ping env ip pass port ≠ none := by
  rw [Ne, tcpFirst_eq_none_iff]
  push_neg
  rfl

/-- C1: for every IPv4 address, `Pinger::ping` classifies the host per the
spec's rule — `Online` if an ICMP echo succeeded, or if a TCP probe succeeded
while no ICMP client was available; `OnlineNoIcmp` if a TCP probe succeeded
while an ICMP client was available but every ICMP attempt failed; `Offline`
otherwise.  Moreover a TCP connect attempt counts as a success with
`rtt = elapsed` both when established and when immediately refused. -/
theorem ping_status_classification (env : PingEnv) (cfg : PingerConfig) (ip : Ipv4)
    (hsem : env.semaphoreOk = true) :
    (((Pinger.ping env cfg ip).status = .online ↔
        (env.icmpClient = true ∧ ∃ a < cfg.retries + 1, env.icmpEcho ip a ≠ none) ∨
        ((∃ pass < cfg.retries + 1, ∃ port ∈ tcpPorts, tcp_ping env ip pass port ≠ none) ∧
          env.icmpClient = false))
      ∧ ((Pinger.ping env cfg ip).status = .onlineNoIcmp ↔
        (∃ pass < cfg.retries + 1, ∃ port ∈ tcpPorts, tcp_ping env ip pass port ≠ none) ∧
          env.icmpClient = true ∧
          ¬ (∃ a < cfg.retries + 1, env.icmpEcho ip a ≠ none))
      ∧ ((Pinger.ping env cfg ip).status = .offline ↔
        ¬ ((env.icmpClient = true ∧ ∃ a < cfg.retries + 1, env.icmpEcho ip a ≠ none) ∨
          (∃ pass < cfg.retries + 1, ∃ port ∈ tcpPorts, tcp_ping env ip pass port ≠ none))))
    ∧ (∀ pass port,
        env.tcpConn ip pass port = .established ∨ env.tcpConn ip pass port = .connRefused →
        tcp_ping env ip pass port = some (env.tcpElapsed ip pass port)) := by
  constructor
  · have hicmp := icmpFirst_ne_none_iff env cfg ip
    have htcp := tcpFirst_ne_none_iff env cfg ip
    cases hic : env.icmpClient with
    | false =>
      simp only [hic] at hicmp htcp ⊢
      cases htf : tcpFirst env cfg ip with
      | none =>
        have h2 : ¬ ∃ pass < cfg.retries + 1, ∃ port ∈ tcpPorts,
            tcp_ping env ip pass port ≠ none := by
          rw [← htcp]
          simp [htf]
        simp [Pinger.ping, hsem, hic, htf, h2]
      | some rtt =>
        have h2 : ∃ pass < cfg.retries + 1, ∃ port ∈ tcpPorts,
            tcp_ping env ip pass port ≠ none := by
          rw [← htcp]
          simp [htf]
        simp [Pinger.ping, hsem, hic, htf, h2]
    | true =>
      simp only [hic] at hicmp htcp ⊢
      cases hif : icmpFirst env cfg ip with
      | some rtt =>
        have h1 : ∃ a < cfg.retries + 1, env.icmpEcho ip a ≠ none := by
          rw [← hicmp]
          simp [hif]
        simp [Pinger.ping, hsem, hic, hif, h1]
      | none =>
        have h1 : ¬ ∃ a < cfg.retries + 1, env.icmpEcho ip a ≠ none := by
          rw [← hicmp]
          simp [hif]
        cases htf : tcpFirst env cfg ip with
        | none =>
          have h2 : ¬ ∃ pass < cfg.retries + 1, ∃ port ∈ tcpPorts,
              tcp_ping env ip pass port ≠ none := by
            rw [← htcp]
            simp [htf]
          simp [Pinger.ping, hsem, hic, hif, htf, h1, h2]
        | some rtt =>
          have h2 : ∃ pass < cfg.retries + 1, ∃ port ∈ tcpPorts,
              tcp_ping env ip pass port ≠ none := by
            rw [← htcp]
            simp [htf]
          simp [Pinger.ping, hsem, hic, hif, htf, h1, h2]
  · intro pass port h
    rcases h with h | h <;> simp [tcp_ping, h]

/-- A concrete environment for the C1 witness: ICMP client present, every
echo unanswered, TCP port 445 refusing connections. -/
def pingEnvW : PingEnv :=
  { semaphoreOk := true
    icmpClient := true
    icmpEcho := fun _ _ => none
    tcpConn := fun _ _ port => if port = 445 then .connRefused else .timedOut
    tcpElapsed := fun _ _ _ => 7 }

theorem ping_status_classification_witness :
    pingEnvW.semaphoreOk = true ∧
    ((((Pinger.ping pingEnvW ⟨1⟩ (ipv4 10 0 0 5)).status = .online ↔
        (pingEnvW.icmpClient = true ∧ ∃ a < 2, pingEnvW.icmpEcho (ipv4 10 0 0 5) a ≠ none) ∨
        ((∃ pass < 2, ∃ port ∈ tcpPorts, tcp_ping pingEnvW (ipv4 10 0 0 5) pass port ≠ none) ∧
          pingEnvW.icmpClient = false))
      ∧ ((Pinger.ping pingEnvW ⟨1⟩ (ipv4 10 0 0 5)).status = .onlineNoIcmp ↔
        (∃ pass < 2, ∃ port ∈ tcpPorts, tcp_ping pingEnvW (ipv4 10 0 0 5) pass port ≠ none) ∧
          pingEnvW.icmpClient = true ∧
          ¬ (∃ a < 2, pingEnvW.icmpEcho (ipv4 10 0 0 5) a ≠ none))
      ∧ ((Pinger.ping pingEnvW ⟨1⟩ (ipv4 10 0 0 5)).status = .offline ↔
        ¬ ((pingEnvW.icmpClient = true ∧ ∃ a < 2, pingEnvW.icmpEcho (ipv4 10 0 0 5) a ≠ none) ∨
          (∃ pass < 2, ∃ port ∈ tcpPorts, tcp_ping pingEnvW (ipv4 10 0 0 5) pass port ≠ none))))
    ∧ (∀ pass port,
        pingEnvW.tcpConn (ipv4 10 0 0 5) pass port = .established ∨
          pingEnvW.tcpConn (ipv4 10 0 0 5) pass port = .connRefused →
        tcp_ping pingEnvW (ipv4 10 0 0 5) pass port =
          some (pingEnvW.tcpElapsed (ipv4 10 0 0 5) pass port))) :=
  ⟨rfl, ping_status_classification pingEnvW ⟨1⟩ (ipv4 10 0 0 5) rfl⟩

/-! ## C2: dash ranges in `IpRange::parse` -/

theorem rangeAddrs_map_toU32 (s e : Nat) (he : e < 4294967296) :
    (rangeAddrs s e).map Ipv4.toU32 = List.range' s (e + 1 - s) := by
  rw [rangeAddrs, List.map_map, List.range'_eq_map_range]
  apply List.map_congr_left
  intro i hi
  have hi2 := List.mem_range.mp hi
  exact Ipv4.toU32_ofU32 (s + i) (by omega)

theorem rangeAddrs_mem (s e : Nat) (he : e < 4294967296) (ip : Ipv4) :
    ip ∈ rangeAddrs s e ↔ s ≤ ip.toU32 ∧ ip.toU32 ≤ e := by
  rw [rangeAddrs]
  simp only [List.mem_map, List.mem_range]
  constructor
  · rintro ⟨i, hi, rfl⟩
    rw [Ipv4.toU32_ofU32 (s + i) (by omega)]
    omega
  · rintro ⟨hs, hel⟩
    refine ⟨ip.toU32 - s, by omega, ?_⟩
    rw [show s + (ip.toU32 - s) = ip.toU32 by omega]
    exact ip.ofU32_toU32

theorem rangeAddrs_ascending (s e : Nat) (he : e < 4294967296) :
    List.Pairwise (fun x y : Ipv4 => x.toU32 < y.toU32) (rangeAddrs s e) := by
  have h := List.pairwise_lt_range' s (e + 1 - s) 1
  rw [← rangeAddrs_map_toU32 s e he, List.pairwise_map] at h
  exact h

theorem parse_range_ok_shape (input : Str) (l : List Ipv4)
    (h : parse_range input = .ok l) :
    ∃ a b : Nat, a ≤ b ∧ b < 4294967296 ∧ l = rangeAddrs a b := by
  unfold parse_range at h
  split at h
  case h_1 p0 p1 =>
    split at h
    · cases h
    case h_2 start hstart =>
      split at h
      case h_1 er her => cases h
      case h_2 endIp hend =>
        split at h
        · cases h
        case isFalse hgt =>
          cases h
          exact ⟨start.toU32, endIp.toU32, by omega, endIp.toU32_lt, rfl⟩
  case h_2 => cases h

theorem parse_range_errors (input : Str) (p0 p1 : Str) (start : Ipv4)
    (hsplit : splitOnChar '-' input = [p0, p1]) :
    (Ipv4.fromChars (trimChars p0) = none →
      parse_range input = .error (.invalidStartIp p0))
    ∧ (Ipv4.fromChars (trimChars p0) = some start →
      (∀ er, rangeEnd start p1 = .error er → parse_range input = .error er)
      ∧ (∀ endIp, rangeEnd start p1 = .ok endIp → start.toU32 > endIp.toU32 →
          parse_range input = .error .startGreaterThanEnd)) := by
  refine ⟨fun hnone => ?_, fun hsome => ⟨fun er her => ?_, fun endIp hend hgt => ?_⟩⟩
  · simp [parse_range, hsplit, hnone]
  · simp [parse_range, hsplit, hsome, her]
  · simp [parse_range, hsplit, hsome, hend, hgt]

/-- C2: `IpRange::parse` on a dash range produces every address from start to
end inclusive in ascending numeric order; the right side may be a full dotted
IPv4 or a bare final-octet number reusing the left side's first three octets;
it fails when start > end, when either side fails to parse, and on empty
trimmed input.  Concretely, `parse("10.0.0.5-10")` yields exactly the six
addresses `10.0.0.5`–`10.0.0.10` ascending, `parse("10.0.0.10-10.0.0.5")`
fails, and `parse("")` fails. -/
theorem parse_dash_range_correct :
    (IpRange.parse "10.0.0.5-10".toList =
      .ok [ipv4 10 0 0 5, ipv4 10 0 0 6, ipv4 10 0 0 7,
           ipv4 10 0 0 8, ipv4 10 0 0 9, ipv4 10 0 0 10])
    ∧ (IpRange.parse "10.0.0.10-10.0.0.5".toList = .error .startGreaterThanEnd)
    ∧ (IpRange.parse "".toList = .error .emptyRange)
    ∧ (∀ s : Str, ',' ∉ trimChars s → '/' ∉ trimChars s → '-' ∈ trimChars s →
        IpRange.parse s = parse_range (trimChars s))
    ∧ (∀ input l, parse_range input = .ok l →
        ∃ a b : Nat, a ≤ b ∧ b < 4294967296 ∧ l = rangeAddrs a b)
    ∧ (∀ a b : Nat, a ≤ b → b < 4294967296 →
        (rangeAddrs a b).length = b - a + 1
        ∧ List.Pairwise (fun x y : Ipv4 => x.toU32 < y.toU32) (rangeAddrs a b)
        ∧ (∀ ip : Ipv4, ip ∈ rangeAddrs a b ↔ a ≤ ip.toU32 ∧ ip.toU32 ≤ b))
    ∧ (∀ input p0 p1 start, splitOnChar '-' input = [p0, p1] →
        (Ipv4.fromChars (trimChars p0) = none →
          parse_range input = .error (.invalidStartIp p0))
        ∧ (Ipv4.fromChars (trimChars p0) = some start →
          (∀ er, rangeEnd start p1 = .error er → parse_range input = .error er)
          ∧ (∀ endIp, rangeEnd start p1 = .ok endIp → start.toU32 > endIp.toU32 →
              parse_range input = .error .startGreaterThanEnd))) := by
  refine ⟨by decide, by decide, by decide, ?_, parse_range_ok_shape, ?_, ?_⟩
  · intro s hc hsl hd
    have hne : trimChars s ≠ [] := List.ne_nil_of_mem hd
    simp only [IpRange.parse]
    rw [if_neg hne, if_neg hc, if_neg hsl, if_pos hd]
  · intro a b hab hb
    refine ⟨?_, rangeAddrs_ascending a b hb, rangeAddrs_mem a b hb⟩
    simp [rangeAddrs]
    omega
  · intro input p0 p1 start hsplit
    exact parse_range_errors input p0 p1 start hsplit

theorem parse_dash_range_correct_witness :
    (',' ∉ trimChars " 10.0.0.5-10 ".toList) ∧ ('/' ∉ trimChars " 10.0.0.5-10 ".toList) ∧
    ('-' ∈ trimChars " 10.0.0.5-10 ".toList) ∧
    IpRange.parse " 10.0.0.5-10 ".toList = parse_range (trimChars " 10.0.0.5-10 ".toList) :=
  ⟨by decide, by decide, by decide,
    parse_dash_range_correct.2.2.2.1 " 10.0.0.5-10 ".toList (by decide) (by decide) (by decide)⟩

/-! ## C3: comma lists in `IpRange::parse` -/

/-- The non-empty trimmed tokens of a comma-split input. -/
def commaTokens (input : Str) : List Str :=
  ((splitOnChar ',' input).map trimChars).filter (fun t => !t.isEmpty)

theorem commaLoop_mapM_ok (parts : List Str) :
    ∀ ls, (((parts.map trimChars).filter (fun t => !t.isEmpty)).mapM' comma_token
        = Except.ok ls) →
      commaLoop parts = .ok ls.flatten := by
  induction parts with
  | nil =>
    intro ls h
    simp only [List.map_nil, List.filter_nil, List.mapM'] at h
    cases h
    rfl
  | cons p rest ih =>
    intro ls h
    rw [List.map_cons, List.filter_cons] at h
    by_cases hp : trimChars p = []
    · rw [if_neg (by simp [hp])] at h
      simpa [commaLoop, hp] using ih ls h
    · rw [if_pos (by simp [hp])] at h
      simp only [List.mapM'] at h
      cases hct : comma_token (trimChars p) with
      | error e => rw [hct] at h; cases h
      | ok l =>
        rw [hct] at h
        cases hrest : ((rest.map trimChars).filter (fun t => !t.isEmpty)).mapM' comma_token with
        | error e => rw [hrest] at h; cases h
        | ok ls' =>
          rw [hrest] at h
          cases h
          simp [commaLoop, hp, hct, ih ls' hrest]

theorem commaLoop_mapM_error (parts : List Str) :
    ∀ e, (((parts.map trimChars).filter (fun t => !t.isEmpty)).mapM' comma_token
        = Except.error e) →
      commaLoop parts = .error e := by
  induction parts with
  | nil =>
    intro e h
    simp only [List.map_nil, List.filter_nil, List.mapM'] at h
    cases h
  | cons p rest ih =>
    intro e h
    rw [List.map_cons, List.filter_cons] at h
    by_cases hp : trimChars p = []
    · rw [if_neg (by simp [hp])] at h
      simpa [commaLoop, hp] using ih e h
    · rw [if_pos (by simp [hp])] at h
      simp only [List.mapM'] at h
      cases hct : comma_token (trimChars p) with
      | error e' =>
        rw [hct] at h
        cases h
        simp [commaLoop, hp, hct]
      | ok l =>
        rw [hct] at h
        cases hrest : ((rest.map trimChars).filter (fun t => !t.isEmpty)).mapM' comma_token with
        | error e' =>
          rw [hrest] at h
          cases h
          simp [commaLoop, hp, hct, ih _ hrest]
        | ok ls' => rw [hrest] at h; cases h

/-- C3: on every input containing a comma, `IpRange::parse` splits on commas,
parses each non-empty trimmed token by the CIDR / dash-range / single-IP
rules, and returns the concatenation of the per-token lists in token order
with no cross-token deduplication; a token error propagates, and a comma list
yielding zero total addresses is a parse error. -/
theorem parse_comma_list_correct :
    (∀ s : Str, ',' ∈ trimChars s → IpRange.parse s = parse_comma_list (trimChars s))
    ∧ (∀ input ls, (commaTokens input).mapM comma_token = Except.ok ls →
        parse_comma_list input =
          if ls.flatten = [] then .error .noValidIps else .ok ls.flatten)
    ∧ (∀ input e, (commaTokens input).mapM comma_token = Except.error e →
        parse_comma_list input = .error e)
    ∧ (IpRange.parse "10.0.0.1,10.0.0.1".toList = .ok [ipv4 10 0 0 1, ipv4 10 0 0 1])
    ∧ (IpRange.parse " , ".toList = .error .noValidIps) := by
  refine ⟨?_, ?_, ?_, by decide, by decide⟩
  · intro s hc
    have hne : trimChars s ≠ [] := List.ne_nil_of_mem hc
    simp only [IpRange.parse]
    rw [if_neg hne, if_pos hc]
  · intro input ls h
    rw [← List.mapM'_eq_mapM] at h
    have hloop := commaLoop_mapM_ok (splitOnChar ',' input) ls h
    rw [parse_comma_list, hloop]
  · intro input e h
    rw [← List.mapM'_eq_mapM] at h
    have hloop := commaLoop_mapM_error (splitOnChar ',' input) e h
    rw [parse_comma_list, hloop]

theorem parse_comma_list_correct_witness :
    (',' ∈ trimChars "10.0.0.1, 10.0.0.3-4".toList) ∧
    IpRange.parse "10.0.0.1, 10.0.0.3-4".toList =
      parse_comma_list (trimChars "10.0.0.1, 10.0.0.3-4".toList) :=
  ⟨by decide, parse_comma_list_correct.1 "10.0.0.1, 10.0.0.3-4".toList (by decide)⟩

/-! ## C4: `PortScanner::scan_port` -/

/-- C4: `scan_port` makes one timeout-bounded TCP connect attempt and reports
the port open exactly when the connection is established; every other outcome
— an immediate refusal, any other error, or a timeout — is reported closed,
and (being a total function into `PortResult`) the call never errors.  When
the semaphore is closed the port is likewise reported closed. -/
theorem scan_port_open_iff_established (env : PortEnv) (port : Nat)
    (hsem : env.semaphoreOk = true) :
    ((PortScanner.scan_port env port).is_open = true ↔ env.conn port = .established)
    ∧ (env.conn port = .connRefused → (PortScanner.scan_port env port).is_open = false)
    ∧ (env.conn port = .timedOut → (PortScanner.scan_port env port).is_open = false)
    ∧ (PortScanner.scan_port env port).port = port
    ∧ (PortScanner.scan_port env port).service = get_service_name port
    ∧ (∀ env' : PortEnv, env'.semaphoreOk = false →
        (PortScanner.scan_port env' port).is_open = false) := by
  refine ⟨?_, ?_, ?_, ?_, ?_, ?_⟩
  · cases h : env.conn port <;> simp [PortScanner.scan_port, hsem, h]
  · intro h
    simp [PortScanner.scan_port, hsem, h]
  · intro h
    simp [PortScanner.scan_port, hsem, h]
  · simp [PortScanner.scan_port, hsem]
  · simp [PortScanner.scan_port, hsem]
  · intro env' h
    simp [PortScanner.scan_port, h]

/-- A concrete environment for the C4 witness: the target port refuses. -/
def portEnvW : PortEnv :=
  { semaphoreOk := true, conn := fun _ => .connRefused }

theorem scan_port_open_iff_established_witness :
    portEnvW.semaphoreOk = true ∧
    (((PortScanner.scan_port portEnvW 80).is_open = true ↔ portEnvW.conn 80 = .established)
    ∧ (portEnvW.conn 80 = .connRefused → (PortScanner.scan_port portEnvW 80).is_open = false)
    ∧ (portEnvW.conn 80 = .timedOut → (PortScanner.scan_port portEnvW 80).is_open = false)
    ∧ (PortScanner.scan_port portEnvW 80).port = 80
    ∧ (PortScanner.scan_port portEnvW 80).service = get_service_name 80
    ∧ (∀ env' : PortEnv, env'.semaphoreOk = false →
        (PortScanner.scan_port env' 80).is_open = false)) :=
  ⟨rfl, scan_port_open_iff_established portEnvW 80 rfl⟩

/-! ## C10: `parse_ports` -/

theorem dedupConsec_head : ∀ (b : Nat) (rest : List Nat),
    (dedupConsec (b :: rest)).head? = some b
  | _, [] => rfl
  | b, c :: r => by
    simp only [dedupConsec]
    split
    case isTrue h => rw [h]; exact dedupConsec_head c r
    case isFalse h => rfl

theorem dedupConsec_chain : ∀ l : List Nat,
    l.Sorted (· ≤ ·) → List.Chain' (· < ·) (dedupConsec l)
  | [], _ => by simp [dedupConsec]
  | [_], _ => by simp [dedupConsec]
  | a :: b :: rest, h => by
    have hab : a ≤ b := (List.sorted_cons.mp h).1 b (by simp)
    have htail : (b :: rest).Sorted (· ≤ ·) := (List.sorted_cons.mp h).2
    have ih := dedupConsec_chain (b :: rest) htail
    simp only [dedupConsec]
    split
    case isTrue hEq => exact ih
    case isFalse hNe =>
      rw [List.chain'_cons']
      refine ⟨?_, ih⟩
      intro x hx
      rw [dedupConsec_head b rest, Option.mem_def, Option.some.injEq] at hx
      omega

/-- C10: for every input string, `parse_ports` returns a strictly ascending
(hence sorted and duplicate-free) list of ports and, being a total function,
never errors; empty tokens, tokens that are not a valid `u16`, and malformed
range tokens are silently skipped, and a range token `a-b` with `a > b`
contributes no ports. -/
theorem parse_ports_correct :
    (∀ input : Str, List.Chain' (· < ·) (parse_ports input))
    ∧ (∀ input : Str, (parse_ports input).Nodup)
    ∧ (∀ t : Str, trimChars t = [] → portToken t = [])
    ∧ (∀ t : Str, '-' ∉ trimChars t → parseU16 (trimChars t) = none → portToken t = [])
    ∧ (∀ t a b s e, '-' ∈ trimChars t → splitOnChar '-' (trimChars t) = [a, b] →
        parseU16 a = some s → parseU16 b = some e → e < s → portToken t = [])
    ∧ parse_ports "80,foo,10-5,443,80".toList = [80, 443]
    ∧ parse_ports " 22-24 ,25".toList = [22, 23, 24, 25] := by
  have hchain : ∀ input : Str, List.Chain' (· < ·) (parse_ports input) := by
    intro input
    apply dedupConsec_chain
    exact List.sorted_insertionSort (· ≤ ·) _
  refine ⟨hchain, ?_, ?_, ?_, ?_, by decide, by decide⟩
  · intro input
    have h := List.chain'_iff_pairwise.mp (hchain input)
    exact h.imp Nat.ne_of_lt
  · intro t ht
    simp [portToken, ht]
  · intro t hd hp
    by_cases hne : trimChars t = []
    · simp [portToken, hne]
    · simp [portToken, hne, hd, hp]
  · intro t a b s e hd hsplit hs he hlt
    have hne : trimChars t ≠ [] := List.ne_nil_of_mem hd
    have h0 : e + 1 - s = 0 := by omega
    simp [portToken, hne, hd, hsplit, hs, he, portRange, h0]

theorem parse_ports_correct_witness :
    ('-' ∈ trimChars "10-5".toList)
    ∧ splitOnChar '-' (trimChars "10-5".toList) = ["10".toList, "5".toList]
    ∧ parseU16 "10".toList = some 10
    ∧ parseU16 "5".toList = some 5
    ∧ (5 : Nat) < 10
    ∧ portToken "10-5".toList = [] :=
  ⟨by decide, by decide, by decide, by decide, by decide,
    parse_ports_correct.2.2.2.2.1 "10-5".toList "10".toList "5".toList 10 5
      (by decide) (by decide) (by decide) (by decide) (by decide)⟩

/-! ## C5: pause / resume lifecycle -/

/-- C5: `pause` is effective only from `Scanning`, transitioning to `Paused`
while sending the cancel signal, and the cancel signal stops further
discovery events (once it is observed, no more `HostDiscovered` — and no
`ScanComplete` — events are emitted); `pause` from any other state leaves the
app unchanged.  `resume` is effective only from `Paused`; the resume command
restarts the scan over the full original address list with the completed
counter reset to 0. -/
theorem pause_resume_lifecycle :
    (∀ a : AppM, a.scan_state = .scanning →
        (App.pause_scan a).scan_state = .paused
        ∧ (a.scan_cancel_tx = true → (App.pause_scan a).cancelPending = true))
    ∧ (∀ a : AppM, a.scan_state ≠ .scanning → App.pause_scan a = a)
    ∧ (∀ (cfg : ScanCfg) (env : EnrichEnv) (n : Nat) (results : List PingResult),
        n ≤ results.length →
        scanLoopEvents cfg env (some n) results =
          (results.take n).map (fun r => .hostDiscovered (enrich cfg env r)))
    ∧ (∀ a : AppM, a.scan_state ≠ .paused → App.resume_scan a = a)
    ∧ (∀ a : AppM, a.scan_state = .paused → (App.resume_scan a).scan_state = .scanning)
    ∧ (∀ (a : AppM) (addresses : List Ipv4), a.scan_state = .paused →
        IpRange.parse a.range_input = .ok addresses →
        (App.resume_scan_command a).scan_state = .scanning
        ∧ (App.resume_scan_command a).scan_completed = 0
        ∧ (App.resume_scan_command a).scan_total = addresses.length
        ∧ (App.resume_scan_command a).hosts = []) := by
  refine ⟨?_, ?_, ?_, ?_, ?_, ?_⟩
  · intro a h
    constructor
    · simp [App.pause_scan, h]
    · intro htx
      simp [App.pause_scan, h, htx]
  · intro a h
    simp [App.pause_scan, h]
  · intro cfg env n
    induction n with
    | zero => intro results _; simp [scanLoopEvents]
    | succ n ih =>
      intro results hlen
      cases results with
      | nil => simp at hlen
      | cons r rest =>
        simp only [List.length_cons, Nat.succ_le_succ_iff] at hlen
        simp [scanLoopEvents, ih rest hlen]
  · intro a h
    simp [App.resume_scan, h]
  · intro a h
    simp [App.resume_scan, h]
  · intro a addresses hp hparse
    have hrange : (App.resume_scan a).range_input = a.range_input := by
      simp [App.resume_scan, hp]
    simp only [App.resume_scan_command, App.start_scan, hrange, hparse]
    simp [App.resume_scan, hp]

/-- A concrete paused app for the C5 witness. -/
def appW : AppM :=
  { scan_state := .paused
    focus := .hostsTable
    filter_mode := .all
    range_input := "10.0.0.1-2".toList
    hosts := []
    filtered_hosts := []
    table_state := none
    selected_hosts := []
    scan_total := 2
    scan_completed := 1
    scan_cancel_tx := true
    cancelPending := false
    scan_resume_tx := true
    resumePending := false }

theorem pause_resume_lifecycle_witness :
    appW.scan_state = .paused
    ∧ IpRange.parse appW.range_input = .ok [ipv4 10 0 0 1, ipv4 10 0 0 2]
    ∧ ((App.resume_scan_command appW).scan_state = .scanning
      ∧ (App.resume_scan_command appW).scan_completed = 0
      ∧ (App.resume_scan_command appW).scan_total = [ipv4 10 0 0 1, ipv4 10 0 0 2].length
      ∧ (App.resume_scan_command appW).hosts = []) :=
  ⟨rfl, by decide,
    pause_resume_lifecycle.2.2.2.2.2 appW [ipv4 10 0 0 1, ipv4 10 0 0 2] rfl (by decide)⟩

/-! ## C6: completion handling and the only sort point -/

instance : IsTotal HostInfo (fun h h' => h.ip.toU32 ≤ h'.ip.toU32) :=
  ⟨fun _ _ => Nat.le_total _ _⟩

instance : IsTrans HostInfo (fun h h' => h.ip.toU32 ≤ h'.ip.toU32) :=
  ⟨fun _ _ _ => Nat.le_trans⟩

/-- C6: handling `ScanComplete` transitions to `Completed` unless the session
is `Paused`, drops the cancel handle, and replaces the host list with its
stable sort ascending by IP (a permutation of the accumulated list); handling
`HostDiscovered` merely appends, so completion is the only point at which
ordering is imposed. -/
theorem scan_complete_event :
    (∀ a : AppM, a.scan_state ≠ .paused →
        (App.handle_scan_event a .scanComplete).scan_state = .completed)
    ∧ (∀ a : AppM, a.scan_state = .paused →
        (App.handle_scan_event a .scanComplete).scan_state = .paused)
    ∧ (∀ a : AppM, (App.handle_scan_event a .scanComplete).scan_cancel_tx = false)
    ∧ (∀ a : AppM, (App.handle_scan_event a .scanComplete).hosts = App.sortByIp a.hosts)
    ∧ (∀ hosts : List HostInfo,
        List.Sorted (fun h h' : HostInfo => h.ip.toU32 ≤ h'.ip.toU32) (App.sortByIp hosts))
    ∧ (∀ hosts : List HostInfo, (App.sortByIp hosts).Perm hosts)
    ∧ (∀ (a : AppM) (h : HostInfo),
        (App.handle_scan_event a (.hostDiscovered h)).hosts = a.hosts ++ [h]
        ∧ (App.handle_scan_event a (.hostDiscovered h)).scan_completed
            = a.scan_completed + 1) := by
  refine ⟨?_, ?_, ?_, ?_, ?_, ?_, ?_⟩
  · intro a h
    simp [App.handle_scan_event, App.update_filtered_hosts, h]
  · intro a h
    simp [App.handle_scan_event, App.update_filtered_hosts, h]
  · intro a
    by_cases h : a.scan_state = .paused <;>
      simp [App.handle_scan_event, App.update_filtered_hosts, h]
  · intro a
    by_cases h : a.scan_state = .paused <;>
      simp [App.handle_scan_event, App.update_filtered_hosts, h]
  · intro hosts
    exact List.sorted_insertionSort _ hosts
  · intro hosts
    exact List.perm_insertionSort _ hosts
  · intro a h
    constructor
    · simp only [App.handle_scan_event, App.update_filtered_hosts]
      rw [apply_ite AppM.hosts]
      simp
    · simp only [App.handle_scan_event, App.update_filtered_hosts]
      rw [apply_ite AppM.scan_completed]
      simp

theorem scan_complete_event_witness :
    ({ appW with scan_state := .scanning } : AppM).scan_state ≠ .paused
    ∧ (App.handle_scan_event { appW with scan_state := .scanning } .scanComplete).scan_state
        = .completed :=
  ⟨by decide, scan_complete_event.1 { appW with scan_state := .scanning } (by decide)⟩

/-! ## C9: `scan_hosts` with one worker -/

theorem ping_ip (env : PingEnv) (cfg : PingerConfig) (ip : Ipv4) :
    (Pinger.ping env cfg ip).ip = ip := by
  rw [Pinger.ping]
  split
  · rfl
  · split
    · rfl
    · split <;> rfl

/-- C9: a `scan_hosts` run with concurrency limit 1 over a list of N
addresses sends exactly N `PingResult`s — one per input address, in job
order, so no duplicates and no omissions — and then closes the channel (the
function returns, dropping every sender). -/
theorem scan_hosts_c1_exact (env : PingEnv) (cfg : PingerConfig)
    (addresses : List Ipv4) :
    (scan_hosts_c1 env cfg addresses).length = addresses.length
    ∧ (scan_hosts_c1 env cfg addresses).map (fun r => r.ip) = addresses := by
  induction addresses with
  | nil => exact ⟨rfl, rfl⟩
  | cons ip rest ih =>
    refine ⟨?_, ?_⟩
    · simpa [scan_hosts_c1, workerLoop] using ih.1
    · simp only [scan_hosts_c1, workerLoop, List.map_cons, ping_ip]
      exact congrArg (List.cons ip) ih.2

/-! ## C7 and C8: the result cache -/

theorem splitOnChar_no_sep (sep : Char) (x : Str) (hx : sep ∉ x) :
    splitOnChar sep x = [x] := by
  induction x with
  | nil => rfl
  | cons c cs ih =>
    have hc : ¬ (c = sep) := fun h => hx (by simp [h])
    have hcs : sep ∉ cs := fun h => hx (List.mem_cons_of_mem _ h)
    simp only [splitOnChar, if_neg hc, ih hcs]

theorem splitOnChar_append_sep (sep : Char) (x y : Str) (hx : sep ∉ x) :
    splitOnChar sep (x ++ sep :: y) = x :: splitOnChar sep y := by
  induction x with
  | nil =>
    simp [splitOnChar]
  | cons c cs ih =>
    have hc : ¬ (c = sep) := fun h => hx (by simp [h])
    have hcs : sep ∉ cs := fun h => hx (List.mem_cons_of_mem _ h)
    simp only [List.cons_append, splitOnChar, if_neg hc, List.append_eq, ih hcs]

set_option maxRecDepth 4096 in
theorem parseOctet_toDigits :
    ∀ v : Fin 256, parseOctet (Nat.toDigits 10 v.val) = some v
      ∧ '.' ∉ Nat.toDigits 10 v.val := by
  decide

theorem fromChars_toChars (ip : Ipv4) : Ipv4.fromChars (Ipv4.toChars ip) = some ip := by
  have pa := parseOctet_toDigits ip.a
  have pb := parseOctet_toDigits ip.b
  have pc := parseOctet_toDigits ip.c
  have pd := parseOctet_toDigits ip.d
  have hsplit : splitOnChar '.' (Ipv4.toChars ip) =
      [Nat.toDigits 10 ip.a.val, Nat.toDigits 10 ip.b.val,
       Nat.toDigits 10 ip.c.val, Nat.toDigits 10 ip.d.val] := by
    rw [Ipv4.toChars]
    rw [splitOnChar_append_sep _ _ _ pa.2, splitOnChar_append_sep _ _ _ pb.2,
        splitOnChar_append_sep _ _ _ pc.2, splitOnChar_no_sep _ _ pd.2]
  rw [Ipv4.fromChars, hsplit]
  simp only [pa.1, pb.1, pc.1, pd.1]

theorem fromCached_toCached (now : Nat) (h : HostInfo) :
    ∃ h', fromCached now (toCached h) = some h'
      ∧ h'.ip = h.ip ∧ h'.is_alive = h.is_alive ∧ h'.open_ports = h.open_ports
      ∧ h'.cached_at = some now := by
  cases hres : fromCached now (toCached h) with
  | none =>
    rw [fromCached] at hres
    simp only [toCached, fromChars_toChars] at hres
    cases hres
  | some h' =>
    rw [fromCached] at hres
    simp only [toCached, fromChars_toChars, Option.some.injEq] at hres
    exact ⟨h', rfl, by rw [← hres], by rw [← hres], by rw [← hres], by rw [← hres]⟩

theorem load_save_same_key (now : Nat) (fs : FileState) (key : Str)
    (hosts : List HostInfo) (hne : hosts ≠ []) :
    (load_cache (save_cache now fs key hosts) key).map
        (fun h => (h.ip, h.is_alive, h.open_ports))
      = hosts.map (fun h => (h.ip, h.is_alive, h.open_ports))
    ∧ ∀ h ∈ load_cache (save_cache now fs key hosts) key, h.cached_at = some now := by
  have hload : load_cache (save_cache now fs key hosts) key
      = (hosts.map toCached).filterMap (fromCached now) := by
    rw [save_cache, if_neg hne]
    simp [load_cache]
  rw [hload]
  clear hload hne
  induction hosts with
  | nil => exact ⟨rfl, by intro h hh; cases hh⟩
  | cons h rest ih =>
    obtain ⟨h', hh', hip, halive, hports, hcached⟩ := fromCached_toCached now h
    rw [List.map_cons, List.filterMap_cons, hh']
    refine ⟨?_, ?_⟩
    · rw [List.map_cons, List.map_cons, ih.1, hip, halive, hports]
    · intro x hx
      rcases List.mem_cons.mp hx with rfl | hx
      · exact hcached
      · exact ih.2 x hx

/-- C7: caching round-trips — saving a non-empty host list under a key and
loading that key back returns records equal to the input in
`{ip, alive, openPorts}` with `cachedAt` set to the save time; and saving
under one key leaves every other key's entry untouched. -/
theorem cache_roundtrip :
    (∀ (now : Nat) (fs : FileState) (key : Str) (hosts : List HostInfo),
      hosts ≠ [] →
      (load_cache (save_cache now fs key hosts) key).map
          (fun h => (h.ip, h.is_alive, h.open_ports))
        = hosts.map (fun h => (h.ip, h.is_alive, h.open_ports))
      ∧ ∀ h ∈ load_cache (save_cache now fs key hosts) key, h.cached_at = some now)
    ∧ (∀ (now1 now2 : Nat) (fs : FileState) (keyA keyB : Str)
        (hostsA hostsB : List HostInfo), keyA ≠ keyB →
        load_cache (save_cache now2 (save_cache now1 fs keyB hostsB) keyA hostsA) keyB
          = load_cache (save_cache now1 fs keyB hostsB) keyB) := by
  refine ⟨load_save_same_key, ?_⟩
  intro now1 now2 fs keyA keyB hostsA hostsB hkey
  by_cases hA : hostsA = []
  · rw [save_cache, if_pos hA]
  · rw [save_cache, if_neg hA]
    have hBA : ¬ (keyB = keyA) := fun h => hkey h.symm
    simp only [load_cache, if_neg hBA]
    cases hfs : save_cache now1 fs keyB hostsB <;> simp [FileState.readMap, load_cache]

/-- A concrete host record for the cache witnesses. -/
def hostW : HostInfo :=
  { ip := ipv4 10 0 0 1, is_alive := true, rtt := none, hostname := none,
    mac := none, open_ports := [80], ports_scanned := true, cached_at := none,
    method := .icmp, status := .online }

theorem cache_roundtrip_witness :
    ([hostW] ≠ ([] : List HostInfo))
    ∧ ((load_cache (save_cache 5 .missing "A".toList [hostW]) "A".toList).map
          (fun h => (h.ip, h.is_alive, h.open_ports))
        = [hostW].map (fun h => (h.ip, h.is_alive, h.open_ports))
      ∧ ∀ h ∈ load_cache (save_cache 5 .missing "A".toList [hostW]) "A".toList,
          h.cached_at = some 5) :=
  ⟨by decide, cache_roundtrip.1 5 .missing "A".toList [hostW] (by decide)⟩

/-- C8: `load_cache` never surfaces an error — a missing file, malformed
JSON, or an absent key (compared verbatim, unnormalized) all yield the empty
list — and `save_cache` is a no-op on an empty host list. -/
theorem load_cache_total :
    (∀ key : Str, load_cache .missing key = [])
    ∧ (∀ key : Str, load_cache .malformed key = [])
    ∧ (∀ (m : Str → Option CacheEntry) (key : Str), m key = none →
        load_cache (.valid m) key = [])
    ∧ (∀ (now : Nat) (fs : FileState) (key : Str), save_cache now fs key [] = fs)
    ∧ load_cache (save_cache 5 .missing "10.0.0.1-2".toList [hostW])
        " 10.0.0.1-2".toList = [] := by
  refine ⟨fun _ => rfl, fun _ => rfl, ?_, fun _ _ _ => rfl, by decide⟩
  intro m key hnone
  simp [load_cache, hnone]

theorem load_cache_total_witness :
    ((fun _ : Str => (none : Option CacheEntry)) "A".toList = none)
    ∧ load_cache (.valid (fun _ : Str => (none : Option CacheEntry))) "A".toList = [] :=
  ⟨rfl, load_cache_total.2.2.1 (fun _ => none) "A".toList rfl⟩

end IpScannr
